import Mathlib

/-!
Verification of the `linear_algebra_containers` library (fixed-size matrices,
column vectors, 3-vectors, quaternions) against its natural-language
specification.  The C++ templates are shallowly embedded: a
`Matrix<T,m,n>` becomes a function `Fin m → Fin n → T` whose entry `(i,j)`
corresponds to the flat column-major slot `i + j*m` of `MatrixBase::entries_`;
`for`-loop accumulations become the structural recursion `loopSum`; the
`<cmath>` scalar functions (`sqrt`, `acos`, `sin`, `cos`, `exp`, `log`) that
the element type supplies are bundled into a `ScalarOps` parameter so that
every definition stays computable.  In-place mutating methods are embedded as
functions from the receiver state to the new state.
-/

namespace LinAlg

/-- The scalar math functions drawn from `<cmath>` (`using std::sqrt` etc.)
that the element type `T` of the containers is assumed to provide. -/
structure ScalarOps (T : Type) where
  sqrt : T → T
  acos : T → T
  sin : T → T
  cos : T → T
  exp : T → T
  log : T → T

/-- Embedding of `lin_algebra::Matrix<T,m,n>` (built on `MatrixBase`): the
entry at row `i`, column `j`.  In the C++ source this entry lives at the flat
column-major index `MatrixBase::index(i,j) = i + j*m` of `entries_`. -/
def Matrix (T : Type) (m n : ℕ) : Type := Fin m → Fin n → T

/-- The flat column-major index `row + column*rows` (`MatrixBase::index`)
stays inside the `rows*cols` storage. -/
lemma flatIndex_lt {m n : ℕ} (i : Fin m) (j : Fin n) :
    i.val + j.val * m < m * n := by
  calc i.val + j.val * m < m + j.val * m := by omega
    _ = (j.val + 1) * m := by ring
    _ ≤ n * m := Nat.mul_le_mul_right m j.isLt
    _ = m * n := Nat.mul_comm n m

/-- A matrix built from its flat column-major entry array (the
`MatrixBase(Ts... values)` constructor filling `entries_`): entry `(i,j)` is
the flat element at `index(i,j) = i + j*m`. -/
def Matrix.ofFlat {T : Type} {m n : ℕ} (f : Fin (m * n) → T) : Matrix T m n :=
  fun i j => f ⟨i.val + j.val * m, flatIndex_lt i j⟩

/-- `MatrixBase::fill(val)`: every entry is set to `val`. -/
def Matrix.fill {T : Type} {m n : ℕ} (v : T) : Matrix T m n := fun _ _ => v

/-- `MatrixBase::zeros()`: `fill(T(0))`. -/
def Matrix.zeros {T : Type} {m n : ℕ} [Zero T] : Matrix T m n := Matrix.fill 0

/-- One store `entries_[index(r,c)] = v` through the column-major layout:
the entry at `(r,c)` becomes `v`, all others are unchanged. -/
def Matrix.setEntry {T : Type} {m n : ℕ} (A : Matrix T m n) (r c : ℕ) (v : T) :
    Matrix T m n :=
  fun i j => if i.val = r ∧ j.val = c then v else A i j

/-- `Matrix::toIdentity()`: `fill(T(0))`, then the loop
`for(i < smaller_dim) entries_[index(i,i)] = 1` where
`smaller_dim = min(rows, cols)`.  The incoming state `A` is wholly
overwritten by the initial `fill`. -/
def Matrix.toIdentity {T : Type} {m n : ℕ} [Zero T] [One T] (A : Matrix T m n) :
    Matrix T m n :=
  let _ := A
  (List.range (Nat.min m n)).foldl (fun M i => M.setEntry i i 1)
    (Matrix.fill 0)

/-- `Matrix::createIdentity()`: default-constructs a result (uninitialized in
C++, immediately overwritten by `toIdentity`'s `fill`) and calls
`toIdentity()` on it. -/
def Matrix.createIdentity (T : Type) (m n : ℕ) [Zero T] [One T] : Matrix T m n :=
  Matrix.toIdentity (Matrix.fill 0)

/-- `Matrix::transposed()`: `result(j,i) = this(i,j)`. -/
def Matrix.transposed {T : Type} {m n : ℕ} (A : Matrix T m n) : Matrix T n m :=
  fun j i => A i j

/-- Elementwise sum, the `operator+=` loop (and thus the copy-then-compound
free `operator+`). -/
def Matrix.addM {T : Type} {m n : ℕ} [Add T] (A B : Matrix T m n) :
    Matrix T m n :=
  fun i j => A i j + B i j

/-- Elementwise difference, the `operator-=` loop (and the free `operator-`). -/
def Matrix.subM {T : Type} {m n : ℕ} [Sub T] (A B : Matrix T m n) :
    Matrix T m n :=
  fun i j => A i j - B i j

/-- `operator*=(double factor)`: every entry is scaled,
`entries_[i] *= factor`.  Both free scaling overloads
(`mat*factor` and `factor*mat`) copy the matrix and apply this compound
assignment, so both are this function. -/
def Matrix.scaleM {T : Type} {m n : ℕ} [Mul T] (A : Matrix T m n) (factor : T) :
    Matrix T m n :=
  fun i j => A i j * factor

/-- Unary negation `operator-`: `T(-1) * copy`, i.e. scaling by `-1`. -/
def Matrix.negM {T : Type} {m n : ℕ} [Mul T] [One T] [Neg T] (A : Matrix T m n) :
    Matrix T m n :=
  Matrix.scaleM A (-1)

/-- The running accumulator of a `for(k = 0; k < n; k++) acc += f(k)` loop
started from `acc = 0`: after `n` iterations the value is `loopSum f n`. -/
def loopSum {T : Type} [Zero T] [Add T] (f : ℕ → T) : ℕ → T
  | 0 => 0
  | k + 1 => loopSum f k + f k

/-- Matrix product `operator*` (`[m x n]*[n x p] = [m x p]`): the result is
zero-initialized (`result.zeros()`) and the triple loop accumulates
`result(i,j) += lhs(i,k) * rhs(k,j)`. -/
def Matrix.matMul {T : Type} {m n p : ℕ} [Zero T] [Add T] [Mul T]
    (lhs : Matrix T m n) (rhs : Matrix T n p) : Matrix T m p :=
  fun i j => loopSum (fun k => if h : k < n then lhs i ⟨k, h⟩ * rhs ⟨k, h⟩ j else 0) n

/-- Simplified product `operator*` for `[1 x m]*[m x 1] = [1]`: a bare scalar
`T result(0); result += lhs(0,i)*rhs(i,0)`. -/
def Matrix.rowColMul {T : Type} {m : ℕ} [Zero T] [Add T] [Mul T]
    (lhs : Matrix T 1 m) (rhs : Matrix T m 1) : T :=
  loopSum (fun i => if h : i < m then lhs 0 ⟨i, h⟩ * rhs ⟨i, h⟩ 0 else 0) m

/-- A `for`-loop accumulation is the sum over the iteration range. -/
lemma loopSum_eq_range_sum {M : Type} [AddCommMonoid M] (f : ℕ → M) (n : ℕ) :
    loopSum f n = ∑ k ∈ Finset.range n, f k := by
  induction n with
  | zero => simp [loopSum]
  | succ k ih => simp [loopSum, ih, Finset.sum_range_succ]

/-- A `for`-loop accumulation over in-bounds indices is the sum over `Fin n`. -/
lemma loopSum_eq_fin_sum {M : Type} [AddCommMonoid M] (n : ℕ) (g : Fin n → M) :
    loopSum (fun k => if h : k < n then g ⟨k, h⟩ else 0) n = ∑ i, g i := by
  rw [loopSum_eq_range_sum,
    ← Fin.sum_univ_eq_sum_range (fun k => if h : k < n then g ⟨k, h⟩ else 0) n]
  exact Finset.sum_congr rfl fun i _ => by rw [dif_pos i.isLt]

/-- `ColumnVector<T,dim>` is the partial specialization `Matrix<T,dim,1>`. -/
abbrev ColumnVector (T : Type) (dim : ℕ) := Matrix T dim 1

/-- `operator[](i)` on a column vector: the flat column-major element `i`,
which for a `[dim x 1]` matrix is the entry at row `i`, column `0`. -/
def ColumnVector.vget {T : Type} {dim : ℕ} (v : ColumnVector T dim) (i : Fin dim) :
    T :=
  v i 0

/-- `Matrix<T,dim,1>::dotProduct(v1,v2)`: the loop
`product += v1[i]*v2[i]` started from `T{0}`. -/
def ColumnVector.dotProduct {T : Type} {dim : ℕ} [Zero T] [Add T] [Mul T]
    (v1 v2 : ColumnVector T dim) : T :=
  loopSum
    (fun i => if h : i < dim then v1.vget ⟨i, h⟩ * v2.vget ⟨i, h⟩ else 0) dim

/-- `Matrix<T,dim,1>::normSquared()`: the loop
`norm += entries_[i]*entries_[i]` started from `T{0}`. -/
def ColumnVector.normSquared {T : Type} {dim : ℕ} [Zero T] [Add T] [Mul T]
    (v : ColumnVector T dim) : T :=
  loopSum (fun i => if h : i < dim then v.vget ⟨i, h⟩ * v.vget ⟨i, h⟩ else 0) dim

/-- `Matrix<T,dim,1>::norm()`: `sqrt(normSquared())` with the element type's
square root. -/
def ColumnVector.norm {T : Type} {dim : ℕ} [Zero T] [Add T] [Mul T]
    (ops : ScalarOps T) (v : ColumnVector T dim) : T :=
  ops.sqrt v.normSquared

/-- `Matrix<T,dim,1>::normalize()`: the in-place update
`(*this) *= (1/norm())`, embedded as the map from the receiver state to the
new receiver state. -/
def ColumnVector.normalize {T : Type} {dim : ℕ} [Zero T] [Add T] [Mul T]
    [One T] [Div T] (ops : ScalarOps T) (v : ColumnVector T dim) :
    ColumnVector T dim :=
  Matrix.scaleM v (1 / v.norm ops)

/-- `Matrix<T,dim,1>::normalized() const`: `VectorType copy(*this);
copy.normalize(); return copy;`.  The method is `const`: it is embedded as a
map from the receiver state to the pair (receiver state after the call,
returned vector). -/
def ColumnVector.normalizedCall {T : Type} {dim : ℕ} [Zero T] [Add T] [Mul T]
    [One T] [Div T] (ops : ScalarOps T) (v : ColumnVector T dim) :
    ColumnVector T dim × ColumnVector T dim :=
  let copy := v
  let copy := copy.normalize ops
  (v, copy)

/-- `Matrix<T,dim,1>::transposed()`: `TransposedVectorType{this->entries_}`,
the same flat storage reinterpreted as a `[1 x dim]` matrix, whose entry
`(0,i)` is the flat element `0 + i*1 = i`. -/
def ColumnVector.transposedCV {T : Type} {dim : ℕ} (v : ColumnVector T dim) :
    Matrix T 1 dim :=
  fun _ i => v i 0

/-- `Vector3<T>` is the partial specialization `Matrix<T,3,1>`. -/
abbrev Vector3 (T : Type) := Matrix T 3 1

/-- The `Matrix(T x, T y, T z)` constructor of the `Matrix<T,3,1>`
specialization: flat entries `[x, y, z]`. -/
def Vector3.mk3 {T : Type} (x y z : T) : Vector3 T :=
  fun i _ => if i.val = 0 then x else if i.val = 1 then y else z

/-- `Matrix<T,3,1>::crossProduct(lhs,rhs)`, the determinant formula:
`result[0] = lhs[1]*rhs[2] - lhs[2]*rhs[1]`,
`result[1] = lhs[2]*rhs[0] - lhs[0]*rhs[2]`,
`result[2] = lhs[0]*rhs[1] - lhs[1]*rhs[0]`. -/
def Vector3.crossProduct {T : Type} [Mul T] [Sub T] (lhs rhs : Vector3 T) :
    Vector3 T :=
  Vector3.mk3
    (ColumnVector.vget lhs 1 * ColumnVector.vget rhs 2 -
      ColumnVector.vget lhs 2 * ColumnVector.vget rhs 1)
    (ColumnVector.vget lhs 2 * ColumnVector.vget rhs 0 -
      ColumnVector.vget lhs 0 * ColumnVector.vget rhs 2)
    (ColumnVector.vget lhs 0 * ColumnVector.vget rhs 1 -
      ColumnVector.vget lhs 1 * ColumnVector.vget rhs 0)

/-- `Matrix<T,3,1>::dotProduct(v1,v2)`: the unrolled three-term sum
`v1[0]*v2[0] + v1[1]*v2[1] + v1[2]*v2[2]`. -/
def Vector3.dotProduct3 {T : Type} [Add T] [Mul T] (v1 v2 : Vector3 T) : T :=
  ColumnVector.vget v1 0 * ColumnVector.vget v2 0 +
    ColumnVector.vget v1 1 * ColumnVector.vget v2 1 +
    ColumnVector.vget v1 2 * ColumnVector.vget v2 2

/-- `Matrix<T,3,1>::normSquared()`: the unrolled three-term sum of squared
entries. -/
def Vector3.normSquared3 {T : Type} [Add T] [Mul T] (v : Vector3 T) : T :=
  ColumnVector.vget v 0 * ColumnVector.vget v 0 +
    ColumnVector.vget v 1 * ColumnVector.vget v 1 +
    ColumnVector.vget v 2 * ColumnVector.vget v 2

/-- `Matrix<T,3,1>::norm()`: `sqrt(normSquared())`. -/
def Vector3.norm3 {T : Type} [Add T] [Mul T] (ops : ScalarOps T) (v : Vector3 T) :
    T :=
  ops.sqrt (Vector3.normSquared3 v)

/-- Embedding of `lin_algebra::Quaternion<T>`: the scalar component `_q0`
and the vector component `_qv`. -/
@[ext]
structure Quaternion (T : Type) where
  q0 : T
  qv : Vector3 T

/-- The default constructor `Quaternion()`: the identity quaternion
`q(1 + 0*i + 0*j + 0*k)`, i.e. `_q0 = 1`, `_qv = (0,0,0)`. -/
def Quaternion.identity (T : Type) [Zero T] [One T] : Quaternion T :=
  ⟨1, Vector3.mk3 0 0 0⟩

/-- `Quaternion::conjugated()`: `Quaternion(_q0, -_qv)`. -/
def Quaternion.conjugated {T : Type} [Mul T] [One T] [Neg T] (q : Quaternion T) :
    Quaternion T :=
  ⟨q.q0, Matrix.negM q.qv⟩

/-- `Quaternion::dotProduct(p,q)`:
`p._q0*q._q0 + Vector3<T>::dotProduct(p._qv, q._qv)`. -/
def Quaternion.dotProductQ {T : Type} [Add T] [Mul T] (p q : Quaternion T) : T :=
  p.q0 * q.q0 + Vector3.dotProduct3 p.qv q.qv

/-- `Quaternion::normSquared()`: `dotProduct(*this, *this)`. -/
def Quaternion.normSquaredQ {T : Type} [Add T] [Mul T] (q : Quaternion T) : T :=
  Quaternion.dotProductQ q q

/-- `Quaternion::norm()`: `sqrt(normSquared())`. -/
def Quaternion.normQ {T : Type} [Add T] [Mul T] (ops : ScalarOps T)
    (q : Quaternion T) : T :=
  ops.sqrt (Quaternion.normSquaredQ q)

/-- The scaling overload `operator*(T n, Quaternion p)`:
`Quaternion(n*p._q0, n*p._qv)` (the vector scaling copies `p._qv` and applies
`*= n` entrywise). -/
def Quaternion.smul {T : Type} [Mul T] (n : T) (p : Quaternion T) :
    Quaternion T :=
  ⟨n * p.q0, Matrix.scaleM p.qv n⟩

/-- `Quaternion::inverse()`: `(1/normSquared()) * conjugated()`. -/
def Quaternion.inverse {T : Type} [Add T] [Mul T] [One T] [Neg T] [Div T]
    (q : Quaternion T) : Quaternion T :=
  Quaternion.smul (1 / Quaternion.normSquaredQ q) (Quaternion.conjugated q)

/-- The Hamilton product `operator*(Quaternion p, Quaternion q)`:
scalar part `p._q0*q._q0 - p._qv.transposed()*q._qv` (through the
`[1 x 3]*[3 x 1]` scalar-product overload), vector part
`p._q0*q._qv + q._q0*p._qv + crossProduct(p._qv, q._qv)`. -/
def Quaternion.mulQ {T : Type} [Zero T] [Add T] [Sub T] [Mul T]
    (p q : Quaternion T) : Quaternion T :=
  ⟨p.q0 * q.q0 - Matrix.rowColMul (ColumnVector.transposedCV p.qv) q.qv,
    Matrix.addM
      (Matrix.addM (Matrix.scaleM q.qv p.q0) (Matrix.scaleM p.qv q.q0))
      (Vector3.crossProduct p.qv q.qv)⟩

/-- `Quaternion::transform(v)`: the closed-form rotation
`2*_qv*(_qv.transposed()*v) - v*(_qv.normSquared()) + (_q0*_q0)*v
 + 2*_q0*crossProduct(_qv, v)`. -/
def Quaternion.transform {T : Type} [Zero T] [Add T] [Sub T] [Mul T]
    [OfNat T 2] (q : Quaternion T) (v : Vector3 T) : Vector3 T :=
  Matrix.addM
    (Matrix.addM
      (Matrix.subM
        (Matrix.scaleM (Matrix.scaleM q.qv 2)
          (Matrix.rowColMul (ColumnVector.transposedCV q.qv) v))
        (Matrix.scaleM v (Vector3.normSquared3 q.qv)))
      (Matrix.scaleM v (q.q0 * q.q0)))
    (Matrix.scaleM (Vector3.crossProduct q.qv v) (2 * q.q0))

/-- `Quaternion::log(p)`: with `lq = p.norm()`, `lv = p._qv.norm()` and
`a = acos(p._q0/lq)/lv`, returns `Quaternion(log(lq), a*p._qv)`. -/
def Quaternion.logQ {T : Type} [Add T] [Mul T] [Div T] (ops : ScalarOps T)
    (p : Quaternion T) : Quaternion T :=
  let lq := Quaternion.normQ ops p
  let lv := Vector3.norm3 ops p.qv
  let a := ops.acos (p.q0 / lq) / lv
  ⟨ops.log lq, Matrix.scaleM p.qv a⟩

/-- `Quaternion::exp(p)`: with `lv = p._qv.norm()` and `s = sin(lv)/lv`,
returns `exp(p._q0) * Quaternion(cos(lv), s*p._qv)`. -/
def Quaternion.expQ {T : Type} [Add T] [Mul T] [Div T] (ops : ScalarOps T)
    (p : Quaternion T) : Quaternion T :=
  let lv := Vector3.norm3 ops p.qv
  let s := ops.sin lv / lv
  Quaternion.smul (ops.exp p.q0) ⟨ops.cos lv, Matrix.scaleM p.qv s⟩

/-- `Quaternion::pow(p,t)`: `exp(t*log(p))`. -/
def Quaternion.powQ {T : Type} [Add T] [Mul T] [Div T] (ops : ScalarOps T)
    (p : Quaternion T) (t : T) : Quaternion T :=
  Quaternion.expQ ops (Quaternion.smul t (Quaternion.logQ ops p))

/-- `Quaternion::composition(p,q)`: `p * exp(0.5*q)`. -/
def Quaternion.composition {T : Type} [Zero T] [One T] [Add T] [Sub T] [Mul T]
    [Div T] [OfNat T 2] (ops : ScalarOps T) (p q : Quaternion T) : Quaternion T :=
  Quaternion.mulQ p (Quaternion.expQ ops (Quaternion.smul (1 / 2) q))

/-- `Quaternion::difference(p,q)`: `2*log(q.inverse()*p)`. -/
def Quaternion.difference {T : Type} [Zero T] [One T] [Add T] [Sub T] [Mul T]
    [Neg T] [Div T] [OfNat T 2] (ops : ScalarOps T) (p q : Quaternion T) :
    Quaternion T :=
  Quaternion.smul 2 (Quaternion.logQ ops (Quaternion.mulQ (Quaternion.inverse q) p))

/-- `Quaternion::slerp(p,q,t)`: `composition(p, t*(difference(q,p)))`. -/
def Quaternion.slerp {T : Type} [Zero T] [One T] [Add T] [Sub T] [Mul T]
    [Neg T] [Div T] [OfNat T 2] (ops : ScalarOps T) (p q : Quaternion T)
    (t : T) : Quaternion T :=
  Quaternion.composition ops p (Quaternion.smul t (Quaternion.difference ops q p))

/-- `Quaternion::getAxisAndAngle(axisOut, angleOut)` of `src/quaternion.h`:
with `q0q0 = _q0*_q0`, if `q0q0 > 1` then `*angleOut = 0` and
`axisOut->set(1,0,0)`; otherwise `*angleOut = 2*acos(_q0)` and
`*axisOut = (1/s)*_qv` with `s = sqrt(1 - q0q0)`.  Returned as the pair
(axis written, angle written). -/
def Quaternion.getAxisAndAngle {T : Type} [LinearOrderedField T]
    (ops : ScalarOps T) (q : Quaternion T) : Vector3 T × T :=
  let q0q0 := q.q0 * q.q0
  if q0q0 > 1 then
    (Vector3.mk3 1 0 0, 0)
  else
    let s := ops.sqrt (1 - q0q0)
    (Matrix.scaleM q.qv (1 / s), 2 * ops.acos q.q0)

/-- `quaternion::getAxisAndAngle(axisOut, angleOut)` of
`source/quaternion.h` (the historical variant storing `w,x,y,z`): the
function receives the caller's axis and angle lvalues and is embedded as the
map to their values after the call.  Both branches overwrite the axis via
`axisOut->set(...)`, but in both branches the angle assignment is
`angleOut = T(0)` resp. `angleOut = 2*acos(w)` — it rebinds the local
pointer parameter instead of storing through it, so the caller's angle keeps
its incoming value. -/
def Quaternion.getAxisAndAngleSource {T : Type} [LinearOrderedField T]
    (ops : ScalarOps T) (q : Quaternion T) (axisIn : Vector3 T) (angleIn : T) :
    Vector3 T × T :=
  let _ := axisIn
  let w2 := q.q0 * q.q0
  if w2 > 1 then
    (Vector3.mk3 1 0 0, angleIn)
  else
    let s := ops.sqrt (1 - w2)
    (Vector3.mk3 (ColumnVector.vget q.qv 0 / s) (ColumnVector.vget q.qv 1 / s)
      (ColumnVector.vget q.qv 2 / s), angleIn)

/-! Concrete scenario data: `Matrix<double,4,4>` built from the column-major
entry list `{1..16}` and `Matrix<double,4,2>` from `{1..8}`. -/

/-- The `4 x 4` matrix with column-major entries `1..16`. -/
def matA : Matrix ℤ 4 4 := Matrix.ofFlat fun k => (k.val : ℤ) + 1

/-- The `4 x 2` matrix with column-major entries `1..8`. -/
def matB : Matrix ℤ 4 2 := Matrix.ofFlat fun k => (k.val : ℤ) + 1

/-! Theorems for the claims. -/

/-- Claim C3: the matrix product `operator*` computes
`result(i,j) = Σ_k lhs(i,k)*rhs(k,j)` with the accumulator starting at zero,
and on the concrete `4x4 {1..16}` times `4x2 {1..8}` instance the result has
entry `(0,0) = 90` and entry `(3,1) = 280`. -/
theorem matMul_entry_spec :
    (∀ (T : Type) [CommRing T] (m n p : ℕ) (A : Matrix T m n) (B : Matrix T n p)
        (i : Fin m) (j : Fin p), Matrix.matMul A B i j = ∑ k, A i k * B k j) ∧
      Matrix.matMul matA matB 0 0 = 90 ∧ Matrix.matMul matA matB 3 1 = 280 := by
  refine ⟨?_, by decide, by decide⟩
  intro T _ m n p A B i j
  exact loopSum_eq_fin_sum n fun k => A i k * B k j

/-- Claim C4: for column vectors of one dimension, `dotProduct(v1,v2)` is the
sum `Σ_i v1[i]*v2[i]`, and it coincides with the degenerate scalar product
`v1.transposed() * v2` of the `[1 x dim]*[dim x 1]` overload. -/
theorem dotProduct_spec (T : Type) [CommRing T] (dim : ℕ)
    (v1 v2 : ColumnVector T dim) :
    ColumnVector.dotProduct v1 v2 =
        ∑ i, ColumnVector.vget v1 i * ColumnVector.vget v2 i ∧
      ColumnVector.dotProduct v1 v2 =
        Matrix.rowColMul (ColumnVector.transposedCV v1) v2 := by
  constructor
  · exact loopSum_eq_fin_sum dim
      fun i => ColumnVector.vget v1 i * ColumnVector.vget v2 i
  · rfl

/-- Any run of the `toIdentity` diagonal-store loop: entry `(i,j)` becomes `1`
exactly when `i = j` and the diagonal index `i` was visited, and is otherwise
whatever the starting matrix held. -/
lemma setEntry_diag_foldl {T : Type} [One T] {m n : ℕ} (L : List ℕ)
    (A : Matrix T m n) (i : Fin m) (j : Fin n) :
    (L.foldl (fun M k => Matrix.setEntry M k k 1) A) i j =
      if i.val = j.val ∧ i.val ∈ L then 1 else A i j := by
  induction L generalizing A with
  | nil => simp
  | cons a L ih =>
    rw [List.foldl_cons, ih]
    have hset : Matrix.setEntry A a a 1 i j =
        if i.val = a ∧ j.val = a then (1 : T) else A i j := rfl
    by_cases hij : i.val = j.val
    · by_cases hiL : i.val ∈ L
      · rw [if_pos ⟨hij, hiL⟩, if_pos ⟨hij, List.mem_cons_of_mem a hiL⟩]
      · rw [if_neg fun h => hiL h.2, hset]
        by_cases hia : i.val = a
        · rw [if_pos ⟨hia, hij.symm.trans hia⟩,
            if_pos ⟨hij, List.mem_cons.mpr (Or.inl hia)⟩]
        · rw [if_neg fun h => hia h.1,
            if_neg fun h => (List.mem_cons.mp h.2).elim hia hiL]
    · rw [if_neg fun h => hij h.1, hset,
        if_neg fun h => hij (h.1.trans h.2.symm),
        if_neg fun h => hij h.1]

/-- Claim C5: `createIdentity()` for any element type and any (possibly
non-square) dimensions returns the matrix whose entry `(i,j)` is `1` on the
diagonal (every diagonal index of a `Fin m × Fin n` position is automatically
below `min(m,n)`) and `0` elsewhere. -/
theorem createIdentity_entry_spec (T : Type) [Zero T] [One T] (m n : ℕ)
    (i : Fin m) (j : Fin n) :
    Matrix.createIdentity T m n i j = if i.val = j.val then 1 else 0 := by
  unfold Matrix.createIdentity Matrix.toIdentity
  rw [setEntry_diag_foldl]
  by_cases hij : i.val = j.val
  · have hmem : i.val ∈ List.range (Nat.min m n) := by
      rw [List.mem_range]
      exact Nat.lt_min.mpr ⟨i.isLt, lt_of_eq_of_lt hij j.isLt⟩
    rw [if_pos ⟨hij, hmem⟩, if_pos hij]
  · rw [if_neg fun h => hij h.1, if_neg hij]; rfl

/-- Claim C6: the cross product is anticommutative,
`crossProduct(a,b) = -crossProduct(b,a)` (unary minus being the `T(-1)`
scaling of the source), and `crossProduct(a,a)` is the zero vector. -/
theorem crossProduct_anticomm_self (T : Type) [CommRing T] (a b : Vector3 T) :
    Vector3.crossProduct a b = Matrix.negM (Vector3.crossProduct b a) ∧
      Vector3.crossProduct a a = Matrix.zeros := by
  constructor
  · funext i j
    fin_cases i <;> fin_cases j <;>
      simp [Vector3.crossProduct, Vector3.mk3, Matrix.negM, Matrix.scaleM,
        ColumnVector.vget] <;> ring
  · funext i j
    fin_cases i <;> fin_cases j <;>
      simp [Vector3.crossProduct, Vector3.mk3, Matrix.zeros, Matrix.fill,
        ColumnVector.vget] <;> ring

/-- A three-iteration accumulation loop, unrolled. -/
lemma loopSum_three {T : Type} [Zero T] [Add T] (f : ℕ → T) :
    loopSum f 3 = 0 + f 0 + f 1 + f 2 := rfl

/-- Claim C8: the default-constructed quaternion `(1, (0,0,0))` is a
two-sided identity for the Hamilton product `operator*`. -/
theorem identity_mulQ (T : Type) [Field T] (q : Quaternion T) :
    Quaternion.mulQ (Quaternion.identity T) q = q ∧
      Quaternion.mulQ q (Quaternion.identity T) = q := by
  constructor <;>
    · refine Quaternion.ext ?_ ?_
      · simp [Quaternion.mulQ, Quaternion.identity, Matrix.rowColMul,
          loopSum_three, ColumnVector.transposedCV, Vector3.mk3,
          Vector3.dotProduct3, ColumnVector.vget]
      · funext i j
        fin_cases i <;> fin_cases j <;>
          simp [Quaternion.mulQ, Quaternion.identity, Matrix.addM,
            Matrix.scaleM, Vector3.crossProduct, Vector3.mk3,
            ColumnVector.vget]

/-- Claim C10: transforming any `Vector3` by the default-constructed identity
quaternion returns the vector unchanged: with `q0 = 1`, `qv = (0,0,0)` the
expansion `2*qv*(qv.v) - v*|qv|^2 + q0^2*v + 2*q0*(qv x v)` collapses to `v`
under exact arithmetic. -/
theorem transform_identity (T : Type) [Field T] (v : Vector3 T) :
    Quaternion.transform (Quaternion.identity T) v = v := by
  funext i j
  fin_cases i <;> fin_cases j <;>
    simp [Quaternion.transform, Quaternion.identity, Matrix.addM, Matrix.subM,
      Matrix.scaleM, Matrix.rowColMul, loopSum_three, ColumnVector.transposedCV,
      Vector3.crossProduct, Vector3.normSquared3, Vector3.mk3,
      ColumnVector.vget]

/-- Scaling a quaternion by `0.5`, then by `0.5`, then undoing a factor `2`
is the same as scaling once by `0.5` (the scalar identity
`(1/2)*((1/2)*(2*x)) = (1/2)*x` applied componentwise). -/
lemma smul_half_half_two {T : Type} [LinearOrderedField T] (r : Quaternion T) :
    Quaternion.smul (1 / 2 : T)
        (Quaternion.smul (1 / 2 : T) (Quaternion.smul 2 r)) =
      Quaternion.smul (1 / 2 : T) r := by
  refine Quaternion.ext ?_ ?_
  · show (1 / 2 : T) * ((1 / 2) * (2 * r.q0)) = (1 / 2) * r.q0
    field_simp
  · funext i j
    show r.qv i j * 2 * (1 / 2) * (1 / 2) = r.qv i j * (1 / 2)
    field_simp

/-- Claim C1: `slerp(p,q,t)` is exactly `composition(p, t*difference(q,p))`,
and consequently `slerp(q,q2,0.5) = q * pow(inverse(q)*q2, 0.5)` as an
identity over the `composition` / `difference` / `pow` operators. -/
theorem slerp_composition_pow (T : Type) [LinearOrderedField T]
    (ops : ScalarOps T) (p q q1 q2 : Quaternion T) (t : T) :
    Quaternion.slerp ops p q t =
        Quaternion.composition ops p
          (Quaternion.smul t (Quaternion.difference ops q p)) ∧
      Quaternion.slerp ops q1 q2 (1 / 2) =
        Quaternion.mulQ q1
          (Quaternion.powQ ops (Quaternion.mulQ (Quaternion.inverse q1) q2)
            (1 / 2)) := by
  refine ⟨rfl, ?_⟩
  show Quaternion.mulQ q1
      (Quaternion.expQ ops (Quaternion.smul (1 / 2)
        (Quaternion.smul (1 / 2)
          (Quaternion.smul 2
            (Quaternion.logQ ops
              (Quaternion.mulQ (Quaternion.inverse q1) q2)))))) =
    Quaternion.mulQ q1
      (Quaternion.expQ ops (Quaternion.smul (1 / 2)
        (Quaternion.logQ ops (Quaternion.mulQ (Quaternion.inverse q1) q2))))
  rw [smul_half_half_two]

/-- Element-type operations for the concrete rational evaluations: every
`<cmath>` function is instantiated by the identity map (the claims below do
not depend on which functions are supplied). -/
def opsIdQ : ScalarOps ℚ := ⟨id, id, id, id, id, id⟩

/-- The concrete quaternion `(q0, qv) = (0, (0,1,0))` used to exhibit the
`getAxisAndAngle` divergence. -/
def qC2 : Quaternion ℚ := ⟨0, Vector3.mk3 0 1 0⟩

/-- Claim C2: in the `source/quaternion.h` variant of `getAxisAndAngle` the
angle output never receives the stated value — both branches assign to the
local pointer parameter instead of through it, so the caller's angle keeps
its incoming value (shown universally, and at the concrete quaternion
`(0,(0,1,0))` with incoming angle `37`, where the `src/quaternion.h` variant
writes the claimed value `2*acos(q0) = 0 ≠ 37`). -/
theorem getAxisAndAngleSource_drops_angle :
    (∀ (T : Type) [LinearOrderedField T] (ops : ScalarOps T)
        (q : Quaternion T) (a : Vector3 T) (t : T),
        (Quaternion.getAxisAndAngleSource ops q a t).2 = t) ∧
      (Quaternion.getAxisAndAngleSource opsIdQ qC2 (Vector3.mk3 0 0 0) 37).2 =
        37 ∧
      (Quaternion.getAxisAndAngle opsIdQ qC2).2 = 0 ∧ (37 : ℚ) ≠ 0 := by
  refine ⟨?_, ?_, ?_, by norm_num⟩
  · intro T _ ops q a t
    unfold Quaternion.getAxisAndAngleSource
    dsimp only
    split <;> rfl
  · norm_num [Quaternion.getAxisAndAngleSource, qC2]
  · norm_num [Quaternion.getAxisAndAngle, qC2, opsIdQ]

/-- Claim C7: `normalize` divides every entry by the norm, and for a nonzero
vector the normalized vector has norm one, provided the element type's
`sqrt` satisfies `sqrt(x)*sqrt(x) = x` and `sqrt(x) ≥ 0` on nonnegative
inputs (as the floating-point design intends). -/
theorem normalize_norm_one (T : Type) [LinearOrderedField T]
    (ops : ScalarOps T)
    (hsqrt : ∀ x : T, 0 ≤ x → ops.sqrt x * ops.sqrt x = x)
    (hsqrt0 : ∀ x : T, 0 ≤ x → 0 ≤ ops.sqrt x)
    (dim : ℕ) (v : ColumnVector T dim) (hv : v ≠ Matrix.zeros) :
    (∀ i, ColumnVector.vget (ColumnVector.normalize ops v) i =
        ColumnVector.vget v i / ColumnVector.norm ops v) ∧
      ColumnVector.norm ops (ColumnVector.normalize ops v) = 1 := by
  have hnsq_eq : ColumnVector.normSquared v =
      ∑ i, ColumnVector.vget v i * ColumnVector.vget v i :=
    loopSum_eq_fin_sum dim fun i => ColumnVector.vget v i * ColumnVector.vget v i
  have hnsq_nonneg : 0 ≤ ColumnVector.normSquared v := by
    rw [hnsq_eq]
    exact Finset.sum_nonneg fun i _ => mul_self_nonneg _
  have hex : ∃ i, ColumnVector.vget v i ≠ 0 := by
    by_contra hall
    push_neg at hall
    apply hv
    funext i j
    have hj : j = 0 := Subsingleton.elim j 0
    rw [hj]
    exact hall i
  have hnsq_pos : 0 < ColumnVector.normSquared v := by
    obtain ⟨i0, hi0⟩ := hex
    rw [hnsq_eq]
    exact Finset.sum_pos' (fun i _ => mul_self_nonneg _)
      ⟨i0, Finset.mem_univ i0, mul_self_pos.mpr hi0⟩
  have hNN : ColumnVector.norm ops v * ColumnVector.norm ops v =
      ColumnVector.normSquared v := hsqrt _ hnsq_nonneg
  have hN_ne : ColumnVector.norm ops v ≠ 0 := by
    intro h0
    apply ne_of_gt hnsq_pos
    rw [← hNN, h0, mul_zero]
  constructor
  · intro i
    show ColumnVector.vget v i * (1 / ColumnVector.norm ops v) =
      ColumnVector.vget v i / ColumnVector.norm ops v
    rw [mul_one_div]
  · have h2 : ColumnVector.normSquared (ColumnVector.normalize ops v) = 1 := by
      have hbr : ColumnVector.normSquared (ColumnVector.normalize ops v) =
          ∑ i, ColumnVector.vget (ColumnVector.normalize ops v) i *
            ColumnVector.vget (ColumnVector.normalize ops v) i :=
        loopSum_eq_fin_sum dim fun i =>
          ColumnVector.vget (ColumnVector.normalize ops v) i *
            ColumnVector.vget (ColumnVector.normalize ops v) i
      rw [hbr]
      calc ∑ i, ColumnVector.vget (ColumnVector.normalize ops v) i *
              ColumnVector.vget (ColumnVector.normalize ops v) i
          = ∑ i, (ColumnVector.vget v i * ColumnVector.vget v i) *
              ((1 / ColumnVector.norm ops v) * (1 / ColumnVector.norm ops v)) :=
            Finset.sum_congr rfl fun i _ => by
              show (ColumnVector.vget v i * (1 / ColumnVector.norm ops v)) *
                  (ColumnVector.vget v i * (1 / ColumnVector.norm ops v)) = _
              ring
        _ = (∑ i, ColumnVector.vget v i * ColumnVector.vget v i) *
              ((1 / ColumnVector.norm ops v) * (1 / ColumnVector.norm ops v)) :=
            (Finset.sum_mul _ _ _).symm
        _ = ColumnVector.normSquared v *
              ((1 / ColumnVector.norm ops v) * (1 / ColumnVector.norm ops v)) := by
            rw [← hnsq_eq]
        _ = 1 := by
            rw [show (1 / ColumnVector.norm ops v) *
                  (1 / ColumnVector.norm ops v) =
                1 / (ColumnVector.norm ops v * ColumnVector.norm ops v) by ring,
              hNN, mul_one_div, div_self (ne_of_gt hnsq_pos)]
    show ops.sqrt (ColumnVector.normSquared (ColumnVector.normalize ops v)) = 1
    rw [h2]
    have h1 := hsqrt 1 zero_le_one
    have h1n := hsqrt0 1 zero_le_one
    rcases mul_self_eq_one_iff.mp h1 with h | h
    · exact h
    · exfalso
      rw [h] at h1n
      linarith

/-- Witness for C7: the real vector `(3,0,4)` with the real square root. -/
theorem normalize_norm_one_witness :
    (∀ x : ℝ, 0 ≤ x → Real.sqrt x * Real.sqrt x = x) ∧
      (∀ x : ℝ, 0 ≤ x → 0 ≤ Real.sqrt x) ∧
      (Vector3.mk3 (3 : ℝ) 0 4 ≠ Matrix.zeros) ∧
      ((∀ i, ColumnVector.vget
            (ColumnVector.normalize
              ⟨Real.sqrt, Real.arccos, Real.sin, Real.cos, Real.exp, Real.log⟩
              (Vector3.mk3 (3 : ℝ) 0 4)) i =
          ColumnVector.vget (Vector3.mk3 (3 : ℝ) 0 4) i /
            ColumnVector.norm
              ⟨Real.sqrt, Real.arccos, Real.sin, Real.cos, Real.exp, Real.log⟩
              (Vector3.mk3 (3 : ℝ) 0 4)) ∧
        ColumnVector.norm
            ⟨Real.sqrt, Real.arccos, Real.sin, Real.cos, Real.exp, Real.log⟩
            (ColumnVector.normalize
              ⟨Real.sqrt, Real.arccos, Real.sin, Real.cos, Real.exp, Real.log⟩
              (Vector3.mk3 (3 : ℝ) 0 4)) = 1) := by
  have hs : ∀ x : ℝ, 0 ≤ x → Real.sqrt x * Real.sqrt x = x := fun x hx =>
    Real.mul_self_sqrt hx
  have hs0 : ∀ x : ℝ, 0 ≤ x → 0 ≤ Real.sqrt x := fun x _ => Real.sqrt_nonneg x
  have hv : Vector3.mk3 (3 : ℝ) 0 4 ≠ Matrix.zeros := by
    intro h
    have h00 := congrFun (congrFun h 0) 0
    norm_num [Vector3.mk3, Matrix.zeros, Matrix.fill] at h00
  exact ⟨hs, hs0, hv,
    normalize_norm_one ℝ
      ⟨Real.sqrt, Real.arccos, Real.sin, Real.cos, Real.exp, Real.log⟩
      hs hs0 3 (Vector3.mk3 (3 : ℝ) 0 4) hv⟩

/-- Claim C9: `normalized()` returns the normalized copy and leaves the
receiver untouched: after the call the receiver state is the original vector
and the returned value is `normalize` of a copy. -/
theorem normalized_pure (T : Type) [Field T] (ops : ScalarOps T) (dim : ℕ)
    (v : ColumnVector T dim) :
    (ColumnVector.normalizedCall ops v).1 = v ∧
      (ColumnVector.normalizedCall ops v).2 = ColumnVector.normalize ops v :=
  ⟨rfl, rfl⟩

end LinAlg
